import Mathlib

/-
Shallow embedding of the wx_simple_api client (wx_simple_api.py) and of the
schedule-update protocol exercised by test_telephony_schedule.py.

Machine conventions used throughout:
* JSON documents are modelled by the inductive `JVal`; JSON numbers are
  modelled as integers (no float appears in any claim).
* Python dicts appearing as JSON objects are association lists
  `List (String × JVal)`; `findKey` is first-occurrence lookup, matching
  the Python dict semantics for the inputs we consider (keys unique on the wire).
* Python int(s) on a string is modelled by `pyIntParse` (ASCII scope:
  latin-1 whitespace, an optional sign, decimal digits with single underscore
  separators; this is exactly what CPython accepts for header strings, which
  are latin-1 decoded).  `time.sleep(d)` raises ValueError for negative `d`;
  the backoff model records that as an explicit outcome.
* Character case functions are ASCII, matching the identifiers involved.
-/

/-- A JSON value.  Numbers are integers; floats do not occur in the claims. -/
inductive JVal where
  | jnull
  | jbool (b : Bool)
  | jnum (n : Int)
  | jstr (s : String)
  | jarr (elems : List JVal)
  | jobj (fields : List (String × JVal))

/-- First-occurrence lookup in an association list (Python dict access for
the unique-key mappings that occur on the wire). -/
def findKey : List (String × JVal) → String → Option JVal
  | [], _ => none
  | p :: ps, k => if p.1 = k then some p.2 else findKey ps k

/-- Characters stripped by the Python int(str) conversion (all latin-1
characters with the Unicode whitespace property). -/
def pyWs (c : Char) : Bool :=
  c = ' ' || c = '\t' || c = '\n' || c = '\r' || c = '\x0b' || c = '\x0c' ||
  c = '\x1c' || c = '\x1d' || c = '\x1e' || c = '\x1f' || c = '\x85' || c = '\xa0'

/-- Strip leading and trailing whitespace, as `int(str)` does. -/
def stripEnds (l : List Char) : List Char :=
  ((l.dropWhile pyWs).reverse.dropWhile pyWs).reverse

/-- Numeric value of an ASCII digit. -/
def digitVal (c : Char) : Nat := c.toNat - 48

/-- Digits of an integer literal after the first one: decimal digits with
single underscores allowed between digits (Python 3 grouping rule). -/
def parseDigitsAux : List Char → Nat → Option Nat
  | [], acc => some acc
  | '_' :: rest, acc =>
    match rest with
    | [] => none
    | c :: rest2 => if c.isDigit then parseDigitsAux rest2 (acc * 10 + digitVal c) else none
  | c :: rest, acc => if c.isDigit then parseDigitsAux rest (acc * 10 + digitVal c) else none

/-- A nonempty digit sequence (with the Python underscore grouping); must start
with a digit. -/
def parseDigits : List Char → Option Nat
  | [] => none
  | c :: rest => if c.isDigit then parseDigitsAux rest (digitVal c) else none

/-- Python int(s) for a string s: some n when the conversion succeeds,
`none` when it raises ValueError.  Scope: latin-1 strings (HTTP header
values); in that range CPython accepts exactly optional whitespace, an
optional sign and a digit sequence with underscore separators. -/
def pyIntParse (s : String) : Option Int :=
  match stripEnds s.data with
  | '+' :: rest => (parseDigits rest).map fun n => (n : Int)
  | '-' :: rest => (parseDigits rest).map fun n => -(n : Int)
  | l => (parseDigits l).map fun n => (n : Int)

/-- Is `s` a (nonempty) string of decimal digits?  Used to state claims
phrased in terms of digit strings. -/
def isDigitString (s : String) : Bool :=
  !s.data.isEmpty && s.data.all Char.isDigit

/-- Character rule of the Python method str.title: a letter is uppercased when
the previous character is not a letter and lowercased otherwise; other
characters are unchanged.  The Boolean argument means "previous character was
a letter". -/
def pyTitleAux : List Char → Bool → List Char
  | [], _ => []
  | c :: cs, prevAlpha =>
    (if c.isAlpha then (if prevAlpha then c.toLower else c.toUpper) else c)
      :: pyTitleAux cs c.isAlpha

/-- Python `w.title()` on one word. -/
def pyTitle (w : List Char) : List Char := pyTitleAux w false

/-- Python `s.split(sep)` for the one-character separator, with sep being the
underscore; note that Python returns one (possibly empty) word even for the
empty string, and empty words for adjacent separators. -/
def splitUS : List Char → List (List Char)
  | [] => [[]]
  | c :: cs =>
    if c = '_' then [] :: splitUS cs
    else
      match splitUS cs with
      | [] => [[c]]
      | w :: ws => (c :: w) :: ws

/-- Function to_camel from wx_simple_api.py, transliterated:
the source reads "join(w.title() if i else w for i, w in enumerate(s.split(sep)))"
with sep the underscore. -/
def to_camel (s : String) : String :=
  String.mk (((splitUS s.data).enum.map fun p => if p.1 = 0 then p.2 else pyTitle p.2).flatten)

/-- The wire-name mapping as the specification words it: title-case each
underscore-separated word except the first and concatenate. -/
def to_camel_fromSpec (s : String) : String :=
  String.mk
    (match splitUS s.data with
     | [] => []
     | w :: ws => (w :: ws.map pyTitle).flatten)

/-- Outcome of one invocation of the backoff giveup callback, together with the
side effects it performs.  giveUp means the callback returned True (the retry
loop stops and the RestError propagates); sleepRetry d means it slept d
time-units via time.sleep and returned False (retry); raiseValueError means an
uncaught ValueError escaped the callback (from int() on an unparsable header,
or from time.sleep on a negative duration). -/
inductive BackoffAction where
  | giveUp
  | sleepRetry (d : Int)
  | raiseValueError
deriving DecidableEq

/-- Function giveup_429 from wx_simple_api.py.  For a non-429 status it
returns True immediately (no header read, no sleep).  For 429 it reads the
Retry-After header with integer default 5, converts with int(), clamps with
min(. , 20) and calls time.sleep on the result. -/
def giveup_429 (status : Nat) (retry_after_header : Option String) : BackoffAction :=
  if status ≠ 429 then BackoffAction.giveUp
  else
    match retry_after_header with
    | none => BackoffAction.sleepRetry (min 5 20)
    | some s =>
      match pyIntParse s with
      | none => BackoffAction.raiseValueError
      | some r =>
        let d := min r 20
        if d < 0 then BackoffAction.raiseValueError else BackoffAction.sleepRetry d

/-- What one attempt of the wrapped request does, as scripted by the remote
side: success, a RestError raised by raise_for_status (with the status and the
Retry-After header of the response), or an exception that is not a RestError. -/
inductive AttemptOutcome where
  | success
  | restError (status : Nat) (retry_after : Option String)
  | otherError
deriving DecidableEq

/-- Final outcome of the backoff-wrapped request. -/
inductive RunResult where
  | success
  | raisedRest (status : Nat)
  | raisedOther
  | raisedValueError
  | scriptEnded
deriving DecidableEq

/-- The retry loop produced by backoff.on_exception(backoff.constant,
RestError, interval=0, giveup=giveup_429) around the request: on success or a
non-RestError exception the loop is never entered; on RestError the giveup
callback decides (and performs any sleep); interval=0 adds no further delay;
there is no retry cap.  The argument scripts the outcome of each successive
attempt; the result pairs the list of performed sleeps with the final outcome. -/
def runBackoff : List AttemptOutcome → List Int × RunResult
  | [] => ([], RunResult.scriptEnded)
  | AttemptOutcome.success :: _ => ([], RunResult.success)
  | AttemptOutcome.otherError :: _ => ([], RunResult.raisedOther)
  | AttemptOutcome.restError st ra :: rest =>
    match giveup_429 st ra with
    | BackoffAction.giveUp => ([], RunResult.raisedRest st)
    | BackoffAction.raiseValueError => ([], RunResult.raisedValueError)
    | BackoffAction.sleepRetry d =>
      let p := runBackoff rest
      (d :: p.1, p.2)

/-- One page of a paginated list response: the optional items field of the
decoded body, and the url of the next link relation when the response carries
one.  The type parameter is the typed entity the caller decodes items into. -/
structure Page (α : Type) where
  items : Option (List α)
  next : Option String
deriving DecidableEq

/-- Items contributed by one page: data.get(itemsKey, empty). -/
def itemsOrEmpty {α : Type} (p : Page α) : List α := p.items.getD []

/-- Loop exit test of follow_pagination: the source computes the next url from
the next link (None on KeyError) and loops "while url", so the walk stops both
when there is no next link and when the next url is the empty string. -/
def hasStop {α : Type} (p : Page α) : Bool :=
  match p.next with
  | none => true
  | some u => u = ""

/-- Method follow_pagination of WebexSimpleApi, over the script of pages the
server would serve to the successive GETs.  Accumulates each fetched page and
continues while the response yields a usable next url. -/
def follow_pagination {α : Type} : List (Page α) → List α
  | [] => []
  | p :: rest =>
    if hasStop p then itemsOrEmpty p
    else itemsOrEmpty p ++ follow_pagination rest

/-- Pages actually fetched by the walk: the prefix of the script up to and
including the first page at which the loop exits. -/
def fetchedPages {α : Type} : List (Page α) → List (Page α)
  | [] => []
  | p :: rest => if hasStop p then [p] else p :: fetchedPages rest

/-- Python str.startswith on character lists. -/
def startsWithL : List Char → List Char → Bool
  | _, [] => true
  | [], _ :: _ => false
  | c :: cs, p :: ps => c = p && startsWithL cs ps

/-- Python s.startswith(p) for strings. -/
def strStartsWith (s p : String) : Bool := startsWithL s.data p.data

/-- A successful HTTP response as the transport sees it when decoding the
body: the Content-Type header (none when absent), the body text, and the
result of attempting a JSON parse of that text (jsonParse is what the
response.json() call of the requests library would produce, none when parsing
raises). -/
structure RespBody where
  contentType : Option String
  text : String
  jsonParse : Option JVal

/-- The decoded body returned by the transport: raw text or a parsed JSON
value. -/
inductive BodyData where
  | txt (s : String)
  | json (j : JVal)

/-- Body decoding of WebexSimpleApi._request_w_response, lines 682-688:
"if not ct" yields the empty string (also for an empty header value);
a JSON content type with nonempty text calls response.json(), whose decode
failure on malformed text is not caught and propagates (the error case);
anything else yields the raw text. -/
def decodeBody (r : RespBody) : Except Unit BodyData :=
  match r.contentType with
  | none => Except.ok (BodyData.txt "")
  | some ct =>
    if ct = "" then Except.ok (BodyData.txt "")
    else if strStartsWith ct "application/json" ∧ r.text ≠ "" then
      match r.jsonParse with
      | some j => Except.ok (BodyData.json j)
      | none => Except.error ()
    else Except.ok (BodyData.txt r.text)

/-- Class SingleError of wx_simple_api.py: one description/code pair of the
platform error envelope. -/
structure SingleError where
  description : String
  code : Int
deriving DecidableEq

/-- Class ErrorDetail of wx_simple_api.py: the platform error envelope with a
message, a list of errors and a tracking id (wire name trackingId). -/
structure ErrorDetail where
  message : String
  errors : List SingleError
  tracking_id : String
deriving DecidableEq

/-- Property ErrorDetail.description: the source reads "self.errors and
self.errors[0].description or the empty string"; by Python truthiness this is
the first description when the list is nonempty (the empty string when that
description is itself empty) and the empty string otherwise. -/
def ErrorDetail.description (d : ErrorDetail) : String :=
  match d.errors with
  | [] => ""
  | e :: _ => e.description

/-- Property ErrorDetail.code, same truthiness shape with default 0. -/
def ErrorDetail.code (d : ErrorDetail) : Int :=
  match d.errors with
  | [] => 0
  | e :: _ => e.code

/-- Class RestError: the HTTP status together with the envelope parsed from
the response body when that succeeds.  detail is none when json.loads raised
(no JSON parse of the text) or when ErrorDetail.parse_obj raised
ValidationError; both are swallowed by the constructor. -/
structure RestError where
  status : Nat
  detail : Option ErrorDetail
deriving DecidableEq

/-- Property RestError.description: detail and detail.description or the empty
string. -/
def RestError.description (e : RestError) : String :=
  match e.detail with
  | none => ""
  | some d => d.description

/-- Property RestError.code: detail and detail.code or 0. -/
def RestError.code (e : RestError) : Int :=
  match e.detail with
  | none => 0
  | some d => d.code

/-- Does the key consume a declared field?  pydantic v1 population with
allow_population_by_field_name: a declared field is populated from its alias
(the to_camel wire name) or, failing that, from its snake name. -/
def isDeclKey (decls : List String) (k : String) : Bool :=
  decls.any fun nm => to_camel nm == k || nm == k

/-- Value used to populate a declared field from the input mapping: the alias
key first, the field name as fallback. -/
def fieldLookup (input : List (String × JVal)) (nm : String) : Option JVal :=
  match findKey input (to_camel nm) with
  | some v => some v
  | none => findKey input nm

/-- An ApiModel instance produced by decoding: the declared fields that were
present in the input (in declaration order, with their values) and the extra
input pairs kept by extra=allow.  Declared-but-absent fields are simply not in
setFields: that is the unset state of pydantic __fields_set__. -/
structure DecodedModel where
  setFields : List (String × JVal)
  extras : List (String × JVal)

/-- Decoding an ApiModel (parse_obj) from a wire mapping: populate each
declared field that the input supplies, keep unknown keys as extras, leave
absent declared fields unset. -/
def decodeModel (decls : List String) (input : List (String × JVal)) : DecodedModel :=
  { setFields := decls.filterMap fun nm => (fieldLookup input nm).map fun v => (nm, v),
    extras := input.filter fun p => !(isDeclKey decls p.1) }

/-- Encoding an ApiModel for a write operation:
ApiModel.json(exclude_unset=True, by_alias=True) emits exactly the set fields
under their camel-case aliases, then the extras under their own keys; unset
fields are omitted entirely. -/
def encodeModel (m : DecodedModel) : List (String × JVal) :=
  (m.setFields.map fun p => (to_camel p.1, p.2)) ++ m.extras

/-- Modelled from the spec: the schedule Event entity of the schedules module
(webex_simple_api.telephony.schedules, not under src; only its test is).  Per
the data model an Event is identified by a server-assigned event-id, carries a
current name and an optional rename target new_name (write-only, absent on
read); all its remaining fields do not participate in the rename protocol and
are bundled here as one opaque field named remainder. -/
structure Event where
  event_id : Option String
  name : String
  new_name : Option String
  remainder : String
deriving DecidableEq

/-- Modelled from the spec: the server-side rename step of one event during a
schedule update.  When new_name is set and differs from name the event is
renamed and the server clears new_name in the resulting state; when new_name
equals name no rename occurs (a no-op, not an error); new_name is absent on
read in any case. -/
def updateEvent (e : Event) : Event :=
  match e.new_name with
  | none => e
  | some nn =>
    if nn = e.name then { e with new_name := none }
    else { e with name := nn, new_name := none }

/-- Modelled from the spec: submitting a schedule update replaces the event
collection of the schedule by the submitted list, each event processed by the
rename step; order and event identity are preserved. -/
def updateSchedule (events : List Event) : List Event := events.map updateEvent

/-- Drop the server-assigned id of an event: the projection under which the
swap-inverse property compares states (ids already present before the cycle
are excluded from the encoded representation being compared). -/
def eraseId (e : Event) : Event := { e with event_id := none }

/-- The swap performed by the restore step of the test: name and new_name are
exchanged (the test runs it on events whose new_name was just set, so the
optional value is present; getD covers the degenerate unset case by keeping
the name). -/
def swapNames (e : Event) : Event :=
  { e with name := e.new_name.getD e.name, new_name := some e.name }

/-- Concrete two-event schedule used by the witnesses, mirroring the scenario
of the specification. -/
def evsW : List Event :=
  [Event.mk (some "1") "A" none "r1", Event.mk (some "2") "B" none "r2"]

theorem enumFrom_map_title (f : List Char → List Char) :
    ∀ (ws : List (List Char)) (n : Nat),
      ((List.enumFrom (n + 1) ws).map fun p => if p.1 = 0 then p.2 else f p.2)
        = ws.map f := by
  intro ws
  induction ws with
  | nil => intro n; rfl
  | cons w ws ih =>
    intro n
    simp only [List.enumFrom, List.map_cons]
    rw [ih (n + 1)]
    simp

/-- C9: for every snake-case identifier the wire name computed by to_camel is
obtained by title-casing each underscore-separated word except the first and
concatenating; in particular to_camel maps the schedule id field name to
scheduleId. -/
theorem c9_to_camel_wire_name :
    (∀ s : String, to_camel s = to_camel_fromSpec s)
    ∧ to_camel "schedule_id" = "scheduleId" := by
  constructor
  · intro s
    unfold to_camel to_camel_fromSpec
    cases h : splitUS s.data with
    | nil => simp [h, List.enum]
    | cons w ws =>
      rw [List.enum_cons]
      simp only [List.map_cons]
      rw [enumFrom_map_title pyTitle ws 0]
      simp
  · decide

/-- C3 (counterexample): the header value written minus one parses as the
integer minus one, yet giveup_429 does not sleep min of that and 20 before
retrying: time.sleep raises ValueError on the negative duration. -/
theorem c3_counterexample :
    pyIntParse "-1" = some (-1)
    ∧ giveup_429 429 (some "-1") = BackoffAction.raiseValueError
    ∧ BackoffAction.raiseValueError ≠ BackoffAction.sleepRetry (min (-1 : Int) 20) := by
  decide

/-- C3 (amended): for every 429 response whose Retry-After value parses as a
nonnegative integer r, the callback sleeps exactly min r 20 before retrying;
with no Retry-After header it sleeps exactly 5 (clamping a no-op there). -/
theorem c3_retry_after_clamp :
    (∀ (s : String) (r : Int), pyIntParse s = some r → 0 ≤ r →
      giveup_429 429 (some s) = BackoffAction.sleepRetry (min r 20))
    ∧ giveup_429 429 none = BackoffAction.sleepRetry 5 := by
  constructor
  · intro s r hp hr
    simp only [giveup_429, ne_eq, not_true_eq_false, if_false, hp]
    rw [if_neg (not_lt.mpr (le_min hr (by norm_num)))]
  · decide

theorem c3_retry_after_clamp_witness :
    pyIntParse "100" = some 100 ∧ (0 : Int) ≤ 100
    ∧ giveup_429 429 (some "100") = BackoffAction.sleepRetry 20 := by
  refine ⟨by decide, by decide, ?_⟩
  have h := c3_retry_after_clamp.1 "100" 100 (by decide) (by decide)
  have h20 : (min (100 : Int) 20) = 20 := by decide
  rw [h20] at h
  exact h

/-- C4: every request failing with a non-2xx status other than 429, and every
non-RestError exception, propagates to the caller on the first attempt with
zero retries and zero sleep delay: the loop performs no sleep and its outcome
does not depend on what later attempts would have returned. -/
theorem c4_non_429_no_retry :
    (∀ (st : Nat) (ra : Option String) (rest : List AttemptOutcome), st ≠ 429 →
      runBackoff (AttemptOutcome.restError st ra :: rest) = ([], RunResult.raisedRest st))
    ∧ ∀ rest : List AttemptOutcome,
      runBackoff (AttemptOutcome.otherError :: rest) = ([], RunResult.raisedOther) := by
  constructor
  · intro st ra rest h
    simp [runBackoff, giveup_429, h]
  · intro rest
    rfl

theorem c4_non_429_no_retry_witness :
    (400 ≠ 429)
    ∧ runBackoff [AttemptOutcome.restError 400 (some "1"), AttemptOutcome.success]
        = ([], RunResult.raisedRest 400) :=
  ⟨by decide, c4_non_429_no_retry.1 400 (some "1") [AttemptOutcome.success] (by decide)⟩

/-- C10 (counterexample): the header value plus five is not a string of
decimal digits, yet giveup_429 does not raise ValueError on it: the int()
conversion accepts the sign, so the callback sleeps 5 and retries. -/
theorem c10_counterexample :
    isDigitString "+5" = false
    ∧ giveup_429 429 (some "+5") = BackoffAction.sleepRetry 5
    ∧ BackoffAction.sleepRetry 5 ≠ BackoffAction.raiseValueError := by
  decide

/-- C10 (amended): for every 429 response whose Retry-After value is present
but not accepted by the int() conversion, giveup_429 raises ValueError from
the unguarded conversion instead of sleeping-and-retrying or giving up, so the
caller sees ValueError rather than a RestError. -/
theorem c10_unparsable_retry_after (s : String) (hp : pyIntParse s = none) :
    giveup_429 429 (some s) = BackoffAction.raiseValueError := by
  simp [giveup_429, hp]

theorem c10_unparsable_retry_after_witness :
    pyIntParse "xyz" = none
    ∧ giveup_429 429 (some "xyz") = BackoffAction.raiseValueError :=
  ⟨by decide, c10_unparsable_retry_after "xyz" (by decide)⟩

/-- C6 (counterexample): a first page that carries a next link relation whose
url is the empty string: the walk stops there (the loop condition is the
truthiness of the url), so only the first page is fetched, although the claim
that the walk stops exactly on a missing next link would have both pages
fetched and both item lists returned. -/
theorem c6_counterexample :
    follow_pagination [Page.mk (some [1]) (some ""), Page.mk (some [2]) (none : Option String)]
      = [1]
    ∧ (Page.mk (some [1]) (some "") : Page Nat).next ≠ none
    ∧ ([1] : List Nat) ≠ [1] ++ [2] := by
  decide

/-- C6 (amended): the returned sequence is exactly the concatenation, in page
order, of the items arrays of the fetched pages (a page without items
contributing the empty sequence), hence its length is the sum of their
lengths; the walk stops exactly when a response carries no next link relation
or a next link whose url is the empty string, and fetches every page before
that point. -/
theorem c6_pagination_accumulation {α : Type} (pages : List (Page α)) :
    follow_pagination pages = ((fetchedPages pages).map itemsOrEmpty).flatten
    ∧ (follow_pagination pages).length
        = ((fetchedPages pages).map fun p => (itemsOrEmpty p).length).sum
    ∧ ((fetchedPages pages).dropLast.all fun p => !hasStop p) = true := by
  refine ⟨?_, ?_, ?_⟩
  · induction pages with
    | nil => rfl
    | cons p rest ih =>
      cases h : hasStop p <;> simp [follow_pagination, fetchedPages, h, ih]
  · induction pages with
    | nil => rfl
    | cons p rest ih =>
      cases h : hasStop p <;> simp [follow_pagination, fetchedPages, h, ih]
  · induction pages with
    | nil => rfl
    | cons p rest ih =>
      cases h : hasStop p with
      | true => simp [fetchedPages, h]
      | false =>
        cases hf : fetchedPages rest with
        | nil => simp [fetchedPages, h, hf]
        | cons q l =>
          rw [hf] at ih
          have hfp : fetchedPages (p :: rest) = p :: q :: l := by
            simp [fetchedPages, h, hf]
          rw [hfp, List.dropLast_cons₂, List.all_cons]
          simp [h, ih]

/-- C7 (counterexample): a 200 body with JSON content type whose text is not
valid JSON makes the transport raise the decode failure rather than return
the raw text; and a present-but-empty content type header yields the empty
string even when the raw text is nonempty. -/
theorem c7_counterexample :
    decodeBody (RespBody.mk (some "application/json") "not json" none) = Except.error ()
    ∧ decodeBody (RespBody.mk (some "") "hello" none) = Except.ok (BodyData.txt "")
    ∧ (Except.error () : Except Unit BodyData) ≠ Except.ok (BodyData.txt "not json") := by
  refine ⟨?_, ?_, ?_⟩
  · simp [decodeBody, strStartsWith, startsWithL]
  · simp [decodeBody]
  · simp

/-- C7 (amended): the decoded body is the empty string when the response has
no content-type header; a parsed JSON value when the content type indicates
JSON and the nonempty body parses; the raw body text for any other nonempty
content type; a JSON content type with empty text yields the raw (empty)
text; and a nonempty malformed body under a JSON content type makes the
decode failure propagate (it is not caught). -/
theorem c7_body_decode (r : RespBody) :
    (r.contentType = none → decodeBody r = Except.ok (BodyData.txt ""))
    ∧ (∀ ct, r.contentType = some ct → strStartsWith ct "application/json" = true →
        (r.text ≠ "" →
          (∀ j, r.jsonParse = some j → decodeBody r = Except.ok (BodyData.json j))
          ∧ (r.jsonParse = none → decodeBody r = Except.error ()))
        ∧ (r.text = "" → decodeBody r = Except.ok (BodyData.txt "")))
    ∧ (∀ ct, r.contentType = some ct → ct ≠ "" → strStartsWith ct "application/json" = false →
        decodeBody r = Except.ok (BodyData.txt r.text)) := by
  refine ⟨?_, ?_, ?_⟩
  · intro h
    simp [decodeBody, h]
  · intro ct hct hstarts
    have hne : ct ≠ "" := by
      intro he
      rw [he] at hstarts
      exact absurd hstarts (by decide)
    constructor
    · intro htext
      constructor
      · intro j hj
        simp [decodeBody, hct, hne, hstarts, htext, hj]
      · intro hj
        simp [decodeBody, hct, hne, hstarts, htext, hj]
    · intro htext
      simp [decodeBody, hct, hne, hstarts, htext]
  · intro ct hct hne hstarts
    simp [decodeBody, hct, hne, hstarts]

theorem c7_body_decode_witness :
    (("text/plain" : String) ≠ "")
    ∧ (strStartsWith "text/plain" "application/json" = false)
    ∧ decodeBody (RespBody.mk (some "text/plain") "hi" none)
        = Except.ok (BodyData.txt "hi") := by
  refine ⟨by decide, by decide, ?_⟩
  exact (c7_body_decode (RespBody.mk (some "text/plain") "hi" none)).2.2
    "text/plain" rfl (by decide) (by decide)

theorem updateEvent_set_new_name (n : String) (e : Event) :
    updateEvent { e with new_name := some n } = { e with name := n, new_name := none } := by
  cases e with
  | mk id0 nm0 nn0 r0 =>
    by_cases hn : n = nm0 <;> simp [updateEvent, hn]

theorem updateEvent_clean (e : Event) (h : e.new_name = none) : updateEvent e = e := by
  cases e with
  | mk id0 nm0 nn0 r0 =>
    simp only at h
    simp [updateEvent, h]

/-- C1: spec-modelled rename round-trip.  For a fetched schedule (all events
have new_name absent on read), setting new_name on exactly one event and
submitting the update yields a schedule with the same number of events; that
event has its name set to the prior new_name, new_name absent and every other
field (id and remainder) unchanged; every other event is byte-for-byte
identical to before. -/
theorem c1_rename_roundtrip (evs : List Event) (i : Nat) (n : String)
    (hi : i < evs.length) (hclean : ∀ e ∈ evs, e.new_name = none) :
    (updateSchedule (evs.set i { evs[i] with new_name := some n })).length = evs.length
    ∧ (updateSchedule (evs.set i { evs[i] with new_name := some n }))[i]?
        = some { evs[i] with name := n, new_name := none }
    ∧ ∀ j, j ≠ i →
        (updateSchedule (evs.set i { evs[i] with new_name := some n }))[j]? = evs[j]? := by
  refine ⟨by simp [updateSchedule], ?_, ?_⟩
  · rw [updateSchedule, List.getElem?_map, List.getElem?_set_self (by simpa using hi)]
    simp [updateEvent_set_new_name]
  · intro j hj
    rw [updateSchedule, List.getElem?_map, List.getElem?_set_ne (fun h => hj h.symm)]
    cases hje : evs[j]? with
    | none => rfl
    | some e =>
      have hme : e ∈ evs := List.getElem?_mem hje
      simp [updateEvent_clean e (hclean e hme)]

theorem c1_rename_roundtrip_witness :
    (∀ e ∈ evsW, e.new_name = none)
    ∧ (updateSchedule (evsW.set 0 (Event.mk (some "1") "A" (some "A2") "r1"))).length
        = evsW.length
    ∧ (updateSchedule (evsW.set 0 (Event.mk (some "1") "A" (some "A2") "r1")))[0]?
        = some (Event.mk (some "1") "A2" none "r1")
    ∧ (updateSchedule (evsW.set 0 (Event.mk (some "1") "A" (some "A2") "r1")))[1]?
        = evsW[1]? := by
  have h := c1_rename_roundtrip evsW 0 "A2" (by decide) (by decide)
  exact ⟨by decide, h.1, h.2.1, h.2.2 1 (by decide)⟩

/-- C2: spec-modelled swap-inverse.  Starting from a fetched schedule (all
new_name absent), apply a rename update (each event given some new name), then
a second update built from the client copy by swapping name and new_name on
every event.  Since an update replaces the event collection, the final state
is the second payload after the server rename step; excluding the
server-assigned ids it equals the original event list exactly, so the encoded
representation of the full event list is restored. -/
theorem c2_swap_inverse (evs : List Event) (ns : List String)
    (hlen : evs.length = ns.length) (hclean : ∀ e ∈ evs, e.new_name = none) :
    (updateSchedule
        ((List.zipWith (fun e nn => { e with new_name := some nn }) evs ns).map
          swapNames)).map eraseId
      = evs.map eraseId := by
  induction evs generalizing ns with
  | nil => simp [updateSchedule]
  | cons e evs ih =>
    cases ns with
    | nil => simp at hlen
    | cons nn ns =>
      have hce : e.new_name = none := hclean e (List.mem_cons_self e evs)
      have hcr : ∀ x ∈ evs, x.new_name = none :=
        fun x hx => hclean x (List.mem_cons_of_mem e hx)
      have hhead :
          eraseId (updateEvent (swapNames { e with new_name := some nn })) = eraseId e := by
        cases e with
        | mk id0 nm0 nn0 r0 =>
          simp only at hce
          by_cases hb : nm0 = nn <;> simp [swapNames, updateEvent, eraseId, hb, hce]
      simp only [List.zipWith_cons_cons, List.map_cons, updateSchedule] at ih ⊢
      rw [hhead, ih ns (by simpa using hlen) hcr]

theorem c2_swap_inverse_witness :
    (evsW.length = (["UA", "UB"] : List String).length ∧ ∀ e ∈ evsW, e.new_name = none)
    ∧ (updateSchedule
        ((List.zipWith (fun e nn => { e with new_name := some nn }) evsW ["UA", "UB"]).map
          swapNames)).map eraseId
      = evsW.map eraseId :=
  ⟨⟨by decide, by decide⟩, c2_swap_inverse evsW ["UA", "UB"] (by decide) (by decide)⟩

theorem findKey_append_some (a b : List (String × JVal)) (k : String) (v : JVal)
    (h : findKey a k = some v) : findKey (a ++ b) k = some v := by
  induction a with
  | nil => simp [findKey] at h
  | cons p ps ih =>
    by_cases hk : p.1 = k
    · simp [findKey, hk] at h ⊢
      exact h
    · simp [findKey, hk] at h ⊢
      exact ih h

theorem findKey_append_none (a b : List (String × JVal)) (k : String)
    (h : findKey a k = none) : findKey (a ++ b) k = findKey b k := by
  induction a with
  | nil => rfl
  | cons p ps ih =>
    by_cases hk : p.1 = k
    · simp [findKey, hk] at h
    · simp [findKey, hk] at h ⊢
      exact ih h

theorem findKey_some_mem (l : List (String × JVal)) (k : String) (v : JVal)
    (h : findKey l k = some v) : (k, v) ∈ l := by
  induction l with
  | nil => simp [findKey] at h
  | cons p ps ih =>
    by_cases hk : p.1 = k
    · cases p with
      | mk k0 v0 =>
        simp only at hk
        simp [findKey, hk] at h
        rw [hk, h]
        exact List.mem_cons_self (k, v) ps
    · simp [findKey, hk] at h
      right
      exact ih h

theorem findKey_filter (q : String → Bool) (l : List (String × JVal)) (k : String) :
    findKey (l.filter fun p => q p.1) k = if q k then findKey l k else none := by
  induction l with
  | nil => cases hq : q k <;> simp [findKey, hq]
  | cons p ps ih =>
    by_cases hq : q p.1
    · by_cases hk : p.1 = k
      · rw [hk] at hq
        simp [findKey, hq, hk]
      · simp [List.filter_cons, hq, findKey, hk, ih]
    · by_cases hk : p.1 = k
      · rw [hk] at hq
        simp only [List.filter_cons]
        simp only [Bool.not_eq_true] at hq
        simp [hq, ih, findKey, hk]
      · simp only [List.filter_cons]
        cases hq2 : q p.1
        · simp [ih, findKey, hk]
        · simp [findKey, hk, ih]

theorem fieldLookup_eq_alias (decls : List String) (input : List (String × JVal))
    (hWire : ∀ p ∈ input, (∃ nm ∈ decls, to_camel nm = p.1)
        ∨ (∀ nm ∈ decls, nm ≠ p.1 ∧ to_camel nm ≠ p.1))
    (hFix : ∀ nm ∈ decls, to_camel (to_camel nm) = to_camel nm)
    (nm : String) (hnm : nm ∈ decls) :
    fieldLookup input nm = findKey input (to_camel nm) := by
  unfold fieldLookup
  cases h1 : findKey input (to_camel nm) with
  | some v => rfl
  | none =>
    cases h2 : findKey input nm with
    | none => rfl
    | some v =>
      exfalso
      have hmem := findKey_some_mem input nm v h2
      rcases hWire _ hmem with ⟨m, hmd, hmc⟩ | hno
      · simp only at hmc
        have : to_camel nm = nm := by
          rw [← hmc]
          exact hFix m hmd
        rw [this, h2] at h1
        cases h1
      · exact (hno nm hnm).1 rfl

theorem findKey_mapped (input : List (String × JVal)) (k : String) :
    ∀ ds : List String,
      (∀ m ∈ ds, fieldLookup input m = findKey input (to_camel m)) →
      findKey (ds.filterMap fun nm => (fieldLookup input nm).map fun v => (to_camel nm, v)) k
        = if (ds.any fun m => to_camel m == k) && (findKey input k).isSome
          then findKey input k else none := by
  intro ds
  induction ds with
  | nil => simp [findKey]
  | cons m ds ih =>
    intro hds
    have hm := hds m (List.mem_cons_self m ds)
    have ihds := ih fun x hx => hds x (List.mem_cons_of_mem m hx)
    by_cases hkm : to_camel m = k
    · cases hv : findKey input k with
      | some v =>
        have : fieldLookup input m = some v := by rw [hm, hkm, hv]
        simp [List.filterMap_cons, this, findKey, hkm, hv]
      | none =>
        have : fieldLookup input m = none := by rw [hm, hkm, hv]
        simp only [List.filterMap_cons, this, Option.map_none']
        rw [ihds]
        simp [hv]
    · cases hv : fieldLookup input m with
      | none =>
        simp only [List.filterMap_cons, hv, Option.map_none']
        rw [ihds]
        simp [hkm]
      | some v =>
        simp only [List.filterMap_cons, hv, Option.map_some']
        simp only [findKey, hkm, if_false]
        rw [ihds]
        simp [hkm]

theorem mapped_fuse (input : List (String × JVal)) :
    ∀ ds : List String,
      ((ds.filterMap fun nm => (fieldLookup input nm).map fun v => (nm, v)).map
          fun p => (to_camel p.1, p.2))
        = ds.filterMap fun nm => (fieldLookup input nm).map fun v => (to_camel nm, v) := by
  intro ds
  induction ds with
  | nil => rfl
  | cons m ds ih =>
    cases h : fieldLookup input m <;> simp [List.filterMap_cons, h, ih]

/-- C8: for every ApiModel decoded from a wire mapping and re-encoded without
mutation, lookups on the encoded output agree with the input at every key
(fields absent from the input stay absent, none is invented, none is nulled,
values are unchanged), and every emitted pair is either a declared field under
its camel-case wire name or an extra pair passed through from the input.
Hypotheses: the input is a wire mapping (each key is the camel alias of a
declared field, or collides with no declared name or alias), and the declared
aliases are themselves fixed points of the alias map (true of every to_camel
image, which contains no underscore). -/
theorem c8_encode_roundtrip (decls : List String) (input : List (String × JVal))
    (hWire : ∀ p ∈ input, (∃ nm ∈ decls, to_camel nm = p.1)
        ∨ (∀ nm ∈ decls, nm ≠ p.1 ∧ to_camel nm ≠ p.1))
    (hFix : ∀ nm ∈ decls, to_camel (to_camel nm) = to_camel nm) :
    (∀ k, findKey (encodeModel (decodeModel decls input)) k = findKey input k)
    ∧ ∀ p ∈ encodeModel (decodeModel decls input),
        (∃ nm ∈ decls, p.1 = to_camel nm) ∨ p ∈ input := by
  have hfl : ∀ m ∈ decls, fieldLookup input m = findKey input (to_camel m) :=
    fun m hm => fieldLookup_eq_alias decls input hWire hFix m hm
  constructor
  · intro k
    show findKey
        (((decls.filterMap fun nm => (fieldLookup input nm).map fun v => (nm, v)).map
            fun p => (to_camel p.1, p.2))
          ++ input.filter fun p => !(isDeclKey decls p.1)) k
      = findKey input k
    rw [mapped_fuse input decls]
    have hm := findKey_mapped input k decls hfl
    rcases h1 : findKey
        (decls.filterMap fun nm => (fieldLookup input nm).map fun v => (to_camel nm, v)) k with
      _ | v
    · rw [findKey_append_none _ _ _ h1]
      rw [findKey_filter (fun s => !isDeclKey decls s) input k]
      rw [h1] at hm
      by_cases hd : isDeclKey decls k = true
      · have hknone : findKey input k = none := by
          cases h2 : findKey input k with
          | none => rfl
          | some v2 =>
            exfalso
            by_cases hA : (decls.any fun m => to_camel m == k) = true
            · rw [hA, h2] at hm
              simp at hm
            · have hmem := findKey_some_mem input k v2 h2
              rcases hWire _ hmem with ⟨m, hmd, hmc⟩ | hno
              · exact hA (by
                  simp only [List.any_eq_true]
                  exact ⟨m, hmd, by simp [hmc]⟩)
              · simp only [isDeclKey, List.any_eq_true] at hd
                rcases hd with ⟨nm, hnmd, hnmk⟩
                rcases Bool.or_eq_true_iff.mp hnmk with hc | hn
                · exact (hno nm hnmd).2 (by simpa using hc)
                · exact (hno nm hnmd).1 (by simpa using hn)
        rw [hknone]
        simp [hd]
      · simp only [Bool.not_eq_true] at hd
        simp [hd]
    · rw [findKey_append_some _ _ _ _ h1]
      rw [h1] at hm
      by_cases hc : ((decls.any fun m => to_camel m == k) && (findKey input k).isSome) = true
      · rw [if_pos hc] at hm
        exact hm
      · rw [if_neg (by simp [hc])] at hm
        cases hm
  · intro p hp
    show (∃ nm ∈ decls, p.1 = to_camel nm) ∨ p ∈ input
    have hp2 : p ∈
        ((decls.filterMap fun nm => (fieldLookup input nm).map fun v => (nm, v)).map
            fun q => (to_camel q.1, q.2))
          ++ input.filter fun q => !(isDeclKey decls q.1) := hp
    rcases List.mem_append.mp hp2 with hml | hmr
    · left
      rcases List.mem_map.mp hml with ⟨q, hq, hpq⟩
      rcases List.mem_filterMap.mp hq with ⟨nm, hnm, hsome⟩
      refine ⟨nm, hnm, ?_⟩
      cases hfld : fieldLookup input nm with
      | none => rw [hfld] at hsome; cases hsome
      | some v =>
        rw [hfld] at hsome
        simp only [Option.map_some'] at hsome
        cases hsome
        rw [← hpq]
    · right
      exact List.mem_of_mem_filter hmr

theorem c8_encode_roundtrip_witness :
    (∀ p ∈ [("scheduleId", JVal.jstr "abc"), ("extraKey", JVal.jnum 1)],
      (∃ nm ∈ ["schedule_id", "name"], to_camel nm = p.1)
      ∨ (∀ nm ∈ ["schedule_id", "name"], nm ≠ p.1 ∧ to_camel nm ≠ p.1))
    ∧ (∀ nm ∈ ["schedule_id", "name"], to_camel (to_camel nm) = to_camel nm)
    ∧ findKey
        (encodeModel (decodeModel ["schedule_id", "name"]
          [("scheduleId", JVal.jstr "abc"), ("extraKey", JVal.jnum 1)])) "scheduleId"
      = findKey [("scheduleId", JVal.jstr "abc"), ("extraKey", JVal.jnum 1)] "scheduleId"
    ∧ findKey
        (encodeModel (decodeModel ["schedule_id", "name"]
          [("scheduleId", JVal.jstr "abc"), ("extraKey", JVal.jnum 1)])) "name"
      = findKey [("scheduleId", JVal.jstr "abc"), ("extraKey", JVal.jnum 1)] "name" := by
  have hW : ∀ p ∈ [("scheduleId", JVal.jstr "abc"), ("extraKey", JVal.jnum 1)],
      (∃ nm ∈ ["schedule_id", "name"], to_camel nm = p.1)
      ∨ (∀ nm ∈ ["schedule_id", "name"], nm ≠ p.1 ∧ to_camel nm ≠ p.1) := by
    decide
  have hF : ∀ nm ∈ ["schedule_id", "name"], to_camel (to_camel nm) = to_camel nm := by
    decide
  have h := c8_encode_roundtrip ["schedule_id", "name"]
    [("scheduleId", JVal.jstr "abc"), ("extraKey", JVal.jnum 1)] hW hF
  exact ⟨hW, hF, h.1 "scheduleId", h.1 "name"⟩
